import Mathlib

/-
Verification of the registry snapshot/restore module (src/src/registry.rs).

The module captures a subtree of the Windows registry into an in-memory
model (Hives -> Keys -> Entries -> Entry) and replays such a model back
into the registry.  The registry itself and the winreg crate are external
collaborators: they are modelled here explicitly.

Modelling choices, kept uniform through the file:
- Rust HashMap becomes an association list (List (String x _)); the source
  only inserts through entry().or_insert_with, modelled by updAt below.
- A live registry subtree is a finite tree (RegNode / RegForest).  Each
  node carries an "openable" flag (open_subkey on the node succeeds), the
  list of its directly contained values as enum_values yields them (a none
  item models an enumeration item that errored and is dropped by
  filter_map), and its child keys as enum_keys yields them (RegForest.skip
  models an errored enumeration item).
- The source re-opens each child by its full path ("key\\name") from the
  hive root; registry key names contain no backslash and sibling names are
  unique, so that open resolves to the enumerated child node, which the
  embedding passes directly to the recursive call.
- Raw value bytes are abstracted by RegData: ofStr s stands for a byte
  payload that decodes to the string s, ofNum n for the little-endian
  encoding of n, raw for any other payload.  Decoding a payload that does
  not match the expected shape fails (models a from_reg_value error).
- The YAML persistence (Hives::load / Hives::save) is the external
  structured-text codec of the spec and is out of scope here.
- Writes performed by restore are collected in a list (the trace of
  set_raw_value calls); environmental failures of create_subkey and
  set_raw_value are supplied by a RestoreEnv oracle.
-/

/-- Native value type tags, model of winreg::enums::RegType. -/
inductive RegType where
  | REG_NONE
  | REG_SZ
  | REG_EXPAND_SZ
  | REG_BINARY
  | REG_DWORD
  | REG_DWORD_BIG_ENDIAN
  | REG_LINK
  | REG_MULTI_SZ
  | REG_RESOURCE_LIST
  | REG_FULL_RESOURCE_DESCRIPTOR
  | REG_RESOURCE_REQUIREMENTS_LIST
  | REG_QWORD
deriving DecidableEq, Repr

/-- Abstraction of the raw byte payload of a native registry value. -/
inductive RegData where
  | ofStr (s : String)
  | ofNum (n : Nat)
  | raw
deriving DecidableEq, Repr

/-- Model of winreg::RegValue: a type tag plus the raw bytes. -/
structure RegValue where
  vtype : RegType
  data : RegData
deriving DecidableEq, Repr

/-- Model of String::from_reg_value (winreg::types::FromRegValue): accepts
the three string type tags, fails on any other tag or on a payload that is
not string shaped. -/
def stringFromRegValue (v : RegValue) : Option String :=
  match v.vtype with
  | .REG_SZ | .REG_EXPAND_SZ | .REG_MULTI_SZ =>
    match v.data with
    | .ofStr s => some s
    | _ => none
  | _ => none

/-- Model of u32::from_reg_value: accepts REG_DWORD only; reads four
little-endian bytes, hence the value is below 2 ^ 32. -/
def u32FromRegValue (v : RegValue) : Option Nat :=
  match v.vtype with
  | .REG_DWORD =>
    match v.data with
    | .ofNum n => some (n % 2 ^ 32)
    | _ => none
  | _ => none

/-- Model of u64::from_reg_value: accepts REG_QWORD only. -/
def u64FromRegValue (v : RegValue) : Option Nat :=
  match v.vtype with
  | .REG_QWORD =>
    match v.data with
    | .ofNum n => some (n % 2 ^ 64)
    | _ => none
  | _ => none

/-- Model of String::to_reg_value (winreg::types::ToRegValue): a String
carries no type information, so the produced native value is always tagged
REG_SZ.  Nothing else is possible for the source, which converts all three
string variants of Entry through this one function. -/
def stringToRegValue (s : String) : RegValue := ⟨.REG_SZ, .ofStr s⟩

/-- Model of u32::to_reg_value. -/
def u32ToRegValue (n : Nat) : RegValue := ⟨.REG_DWORD, .ofNum (n % 2 ^ 32)⟩

/-- Model of u64::to_reg_value. -/
def u64ToRegValue (n : Nat) : RegValue := ⟨.REG_QWORD, .ofNum (n % 2 ^ 64)⟩

/-- The model TypedValue, src/src/registry.rs lines 13-22: five
independently optional fields.  The u32 and u64 payloads are Nat whose
width is enforced at the conversion boundary. -/
structure Entry where
  sz : Option String := none
  expand_sz : Option String := none
  multi_sz : Option String := none
  dword : Option Nat := none
  qword : Option Nat := none
deriving DecidableEq, Repr

/-- Entry::is_set, lines 140-148. -/
def Entry.is_set (e : Entry) : Bool :=
  e.sz.isSome || e.expand_sz.isSome || e.multi_sz.isSome || e.dword.isSome || e.qword.isSome

/-- From<winreg::RegValue> for Entry, lines 150-176: match on the native
type tag, populate the matching variant with the decoded payload or its
default ("" or 0) when decoding fails, any other tag gives the default
(unset) Entry. -/
def Entry.fromRegValue (item : RegValue) : Entry :=
  match item.vtype with
  | .REG_SZ => { sz := some ((stringFromRegValue item).getD "") }
  | .REG_EXPAND_SZ => { expand_sz := some ((stringFromRegValue item).getD "") }
  | .REG_MULTI_SZ => { multi_sz := some ((stringFromRegValue item).getD "") }
  | .REG_DWORD => { dword := some ((u32FromRegValue item).getD 0) }
  | .REG_QWORD => { qword := some ((u64FromRegValue item).getD 0) }
  | _ => {}

/-- From<&Entry> for Option<winreg::RegValue>, lines 178-194: the if-let
chain sz, multi_sz, expand_sz, dword, qword. -/
def Entry.toRegValue? (item : Entry) : Option RegValue :=
  match item.sz with
  | some x => some (stringToRegValue x)
  | none =>
    match item.multi_sz with
    | some x => some (stringToRegValue x)
    | none =>
      match item.expand_sz with
      | some x => some (stringToRegValue x)
      | none =>
        match item.dword with
        | some x => some (u32ToRegValue x)
        | none =>
          match item.qword with
          | some x => some (u64ToRegValue x)
          | none => none

/-- The single error kind of the module (crate::prelude::Error as used
here). -/
inductive Error where
  | RegistryIssue
deriving DecidableEq, Repr

/-- RegistryInfo, lines 24-26. -/
structure RegistryInfo where
  found : Bool
deriving DecidableEq, Repr

/-- The closed set of hive handles, model of the two winreg::HKEY
constants the module resolves (lines 196-202). -/
inductive HKEY where
  | HKEY_CURRENT_USER
  | HKEY_LOCAL_MACHINE
deriving DecidableEq, Repr

/-- get_hkey_from_name, lines 196-202. -/
def get_hkey_from_name (name : String) : Option HKEY :=
  if name = "HKEY_CURRENT_USER" then some HKEY.HKEY_CURRENT_USER
  else if name = "HKEY_LOCAL_MACHINE" then some HKEY.HKEY_LOCAL_MACHINE
  else none

/-- Entries, line 11: value name to Entry. -/
abbrev Entries := List (String × Entry)

/-- Keys, line 8: key path to Entries. -/
abbrev Keys := List (String × Entries)

/-- Hives, line 5: hive name to Keys. -/
abbrev Hives := List (String × Keys)

/-- Association list lookup (first binding wins, as HashMap lookup on
unique keys). -/
def lookupA (m : List (String × α)) (k : String) : Option α :=
  match m with
  | [] => none
  | (k', v) :: rest => if k' = k then some v else lookupA rest k

/-- HashMap entry(k).or_insert_with(d) followed by an in-place update f of
the binding: an absent key is bound to f d, a present key keeps its place
and its value becomes f of the old value. -/
def updAt (m : List (String × α)) (k : String) (d : α) (f : α → α) : List (String × α) :=
  match m with
  | [] => [(k, f d)]
  | (k', v) :: rest => if k' = k then (k', f v) :: rest else (k', v) :: updAt rest k d f

/-- The three-level insertion of store_key, lines 73-81: entry or_insert
at the hive, key and entry level, so an existing Entry is kept. -/
def insertEntry (h : Hives) (hive key name : String) (e : Entry) : Hives :=
  updAt h hive [] fun ks => updAt ks key [] fun es => updAt es name e fun old => old

/-- Lookup of one (hive name, key path, entry name) triple in a snapshot. -/
def lookup3 (h : Hives) (hive key name : String) : Option Entry :=
  (lookupA h hive).bind fun ks => (lookupA ks key).bind fun es => lookupA es name

mutual
/-- A live registry key: whether open_subkey on it succeeds, its direct
values as enum_values yields them (none is an errored item, dropped by
filter_map in line 69), and its child keys. -/
inductive RegNode : Type where
  | mk : Bool → List (Option (String × RegValue)) → RegForest → RegNode
/-- The child keys of a live registry key as enum_keys yields them; skip
is an errored enumeration item, dropped by filter_map in line 86. -/
inductive RegForest : Type where
  | nil : RegForest
  | skip : RegForest → RegForest
  | cons : String → RegNode → RegForest → RegForest
end

/-- The openable flag of a node. -/
def RegNode.openableOf : RegNode → Bool
  | .mk b _ _ => b

/-- The direct values of a node. -/
def RegNode.valuesOf : RegNode → List (Option (String × RegValue))
  | .mk _ vs _ => vs

/-- The children of a node. -/
def RegNode.childrenOf : RegNode → RegForest
  | .mk _ _ ch => ch

/-- Find a child key by name (open_subkey of one path segment). -/
def RegForest.find : RegForest → String → Option RegNode
  | .nil, _ => none
  | .skip rest, s => rest.find s
  | .cons name c rest, s => if name = s then some c else rest.find s

/-- The live registry: one root node per predefined hive handle. -/
structure Machine where
  hkcu : RegNode
  hklm : RegNode

/-- winreg::RegKey::predef. -/
def Machine.root (m : Machine) : HKEY → RegNode
  | .HKEY_CURRENT_USER => m.hkcu
  | .HKEY_LOCAL_MACHINE => m.hklm

/-- Replace each forward slash by a backslash, the char-for-char
path.replace of line 47. -/
def normSep (s : List Char) : List Char :=
  s.map fun c => if c = '/' then '\\' else c

/-- splitn(2, sep) of line 49: none when the separator does not occur,
otherwise the part before the first separator and the rest. -/
def splitOnce (sep : Char) : List Char → Option (List Char × List Char)
  | [] => none
  | c :: rest =>
    if c = sep then some ([], rest)
    else
      match splitOnce sep rest with
      | some (pre, post) => some (c :: pre, post)
      | none => none

/-- Split a path into its separator-delimited segments. -/
def splitSegs (sep : Char) : List Char → List (List Char)
  | [] => [[]]
  | c :: rest =>
    let r := splitSegs sep rest
    if c = sep then [] :: r
    else
      match r with
      | [] => [[c]]
      | g :: gs => (c :: g) :: gs

/-- The segments open_subkey walks for a relative key path; the empty path
opens the key itself. -/
def keySegs (s : List Char) : List (List Char) :=
  match s with
  | [] => []
  | _ => splitSegs '\\' s

/-- Path resolution of open_subkey: walk the named children.  Whether the
final open succeeds is the openable flag of the node reached, checked by
the caller. -/
def openSubkey : RegNode → List (List Char) → Option RegNode
  | n, [] => some n
  | n, s :: rest =>
    match n.childrenOf.find (String.mk s) with
    | some c => openSubkey c rest
    | none => none

/-- The value loop of store_key, lines 68-83: decode each successfully
enumerated value, insert the set ones (or_insert), record in found. -/
def storeValues (hive_name key : String) (items : List (Option (String × RegValue)))
    (h : Hives) (found : Bool) : Hives × Bool :=
  match items with
  | [] => (h, found)
  | none :: rest => storeValues hive_name key rest h found
  | some (name, value) :: rest =>
    let entry := Entry.fromRegValue value
    if entry.is_set then storeValues hive_name key rest (insertEntry h hive_name key name entry) true
    else storeValues hive_name key rest h found

mutual
/-- Hives::store_key, lines 63-97, applied to the node its open_subkey
resolved to: open failure is the openable flag; then the value loop, then
the child loop; the call fails when any child call failed. -/
def store_key_node (hive_name key : String) (n : RegNode) (h : Hives) :
    Hives × Except Error RegistryInfo :=
  match n with
  | .mk openable values children =>
    if openable then
      let r1 := storeValues hive_name key values h false
      let r2 := store_children hive_name key children r1.1
      (r2.1, if r2.2 then Except.error Error.RegistryIssue else Except.ok ⟨r1.2⟩)
    else (h, Except.error Error.RegistryIssue)

/-- The child loop of store_key, lines 85-90: recurse on every
successfully enumerated child with the extended path, remember whether
any recursive call failed, never stop early. -/
def store_children (hive_name key : String) (f : RegForest) (h : Hives) : Hives × Bool :=
  match f with
  | .nil => (h, false)
  | .skip rest => store_children hive_name key rest h
  | .cons name c rest =>
    let r := store_key_node hive_name (key ++ "\\" ++ name) c h
    let r2 := store_children hive_name key rest r.1
    (r2.1, (match r.2 with | .error _ => true | .ok _ => false) || r2.2)
end

/-- Hives::store_key from the hive root: resolve the initial key path,
then run on the resolved node; an unresolvable path is a failed
open_subkey (lines 64-66). -/
def Hives.store_key (m : Machine) (h : Hives) (hive : HKEY) (hive_name key : String) :
    Hives × Except Error RegistryInfo :=
  match openSubkey (m.root hive) (keySegs key.data) with
  | none => (h, Except.error Error.RegistryIssue)
  | some n => store_key_node hive_name key n h

/-- Hives::store_key_from_full_path, lines 46-61: normalize separators,
split off the hive name, resolve it, then store_key. -/
def Hives.store_key_from_full_path (m : Machine) (h : Hives) (path : String) :
    Hives × Except Error RegistryInfo :=
  match splitOnce '\\' (normSep path.data) with
  | none => (h, Except.error Error.RegistryIssue)
  | some (pre, rest) =>
    match get_hkey_from_name (String.mk pre) with
    | none => (h, Except.error Error.RegistryIssue)
    | some hive => Hives.store_key m h hive (String.mk pre) (String.mk rest)

/-- Environmental outcomes during restore: whether create_subkey succeeds
for a key path under a hive, and whether set_raw_value succeeds for a
value under such a key. -/
structure RestoreEnv where
  createOk : HKEY → String → Bool
  setOk : HKEY → String → String → RegValue → Bool

/-- One performed set_raw_value: hive handle, key path, value name, native
value. -/
abbrev RegWrite := HKEY × String × String × RegValue

/-- The entry loop of restore, lines 120-128: convert each Entry, a
conversion to no value or a failed set marks failure, a successful set is
recorded; the loop never stops early. -/
def restoreEntries (env : RestoreEnv) (hk : HKEY) (key_name : String) :
    Entries → List RegWrite × Bool
  | [] => ([], false)
  | (entry_name, entry) :: rest =>
    let r := restoreEntries env hk key_name rest
    match Entry.toRegValue? entry with
    | some value =>
      if env.setOk hk key_name entry_name value then ((hk, key_name, entry_name, value) :: r.1, r.2)
      else (r.1, true)
    | none => (r.1, true)

/-- The key loop of restore, lines 111-129: a failed create_subkey marks
failure and skips the entries of that key only. -/
def restoreKeys (env : RestoreEnv) (hk : HKEY) : Keys → List RegWrite × Bool
  | [] => ([], false)
  | (key_name, entries) :: rest =>
    let r := restoreKeys env hk rest
    if env.createOk hk key_name then
      let e := restoreEntries env hk key_name entries
      (e.1 ++ r.1, e.2 || r.2)
    else (r.1, true)

/-- The hive loop of restore, lines 102-130: an unresolvable hive name
marks failure and skips that hive only. -/
def restoreHives (env : RestoreEnv) : Hives → List RegWrite × Bool
  | [] => ([], false)
  | (hive_name, keys) :: rest =>
    let r := restoreHives env rest
    match get_hkey_from_name hive_name with
    | some hk =>
      let k := restoreKeys env hk keys
      (k.1 ++ r.1, k.2 || r.2)
    | none => (r.1, true)

/-- Hives::restore, lines 99-137: the performed writes plus the aggregate
result. -/
def Hives.restore (env : RestoreEnv) (h : Hives) : List RegWrite × Except Error Unit :=
  let r := restoreHives env h
  (r.1, if r.2 then Except.error Error.RegistryIssue else Except.ok ())

/-- Characterization from section 4.3 of the spec: restore fails exactly
when some hive name fails to resolve, some key fails to create, some
entry converts to no value, or some set fails. -/
def restoreFailure (env : RestoreEnv) (h : Hives) : Bool :=
  h.any fun p =>
    match get_hkey_from_name p.1 with
    | none => true
    | some hk =>
      p.2.any fun q =>
        !env.createOk hk q.1 ||
          q.2.any fun r =>
            match Entry.toRegValue? r.2 with
            | none => true
            | some v => !env.setOk hk q.1 r.1 v

/-- Characterization from section 4.3 of the spec: the writes restore
performs are exactly the convertible entries whose hive resolves, whose
key creates and whose set succeeds, in snapshot order, independent of
failures elsewhere (no rollback, no early stop). -/
def restoreWritesSpec (env : RestoreEnv) (h : Hives) : List RegWrite :=
  (h.map fun p =>
    match get_hkey_from_name p.1 with
    | none => []
    | some hk =>
      (p.2.map fun q =>
        if env.createOk hk q.1 then
          q.2.filterMap fun r =>
            match Entry.toRegValue? r.2 with
            | none => none
            | some v => if env.setOk hk q.1 r.1 v then some (hk, q.1, r.1, v) else none
        else []).flatten).flatten

/-- Whether some direct value of a key decodes to a set Entry (the
found_any flag of the spec, section 4.2). -/
def directFound (items : List (Option (String × RegValue))) : Bool :=
  items.any fun item =>
    match item with
    | some (_, v) => (Entry.fromRegValue v).is_set
    | none => false

mutual
/-- Characterization from section 4.2 of the spec: a capture call fails
exactly when opening the key fails or at least one recursive child call
fails. -/
def captureFails : RegNode → Bool
  | .mk openable _ children => !openable || childFails children
/-- Whether at least one recursive child call fails. -/
def childFails : RegForest → Bool
  | .nil => false
  | .skip rest => childFails rest
  | .cons _ c rest => captureFails c || childFails rest
end

mutual
/-- Characterization from section 4.2 of the spec: the snapshot a capture
call builds, collecting every capturable value from every child, with no
dependence on failure flags (every child is attempted, data from
successful siblings remains). -/
def captureAll (hive_name key : String) (n : RegNode) (h : Hives) : Hives :=
  match n with
  | .mk openable values children =>
    if openable then captureChildren hive_name key children (storeValues hive_name key values h false).1
    else h
termination_by structural n
/-- Snapshot contribution of a child list. -/
def captureChildren (hive_name key : String) (f : RegForest) (h : Hives) : Hives :=
  match f with
  | .nil => h
  | .skip rest => captureChildren hive_name key rest h
  | .cons name c rest =>
    let h2 := captureAll hive_name (key ++ "\\" ++ name) c h
    captureChildren hive_name key rest h2
termination_by structural f
end

/-- Number of populated variants of an Entry (payload count, section 3 of
the spec). -/
def payloadCount (e : Entry) : Nat :=
  (if e.sz.isSome then 1 else 0) + (if e.expand_sz.isSome then 1 else 0) +
    (if e.multi_sz.isSome then 1 else 0) + (if e.dword.isSome then 1 else 0) +
    (if e.qword.isSome then 1 else 0)

/-- Join path segments with a separator char. -/
def joinSep (sep : Char) : List (List Char) → List Char
  | [] => []
  | [s] => s
  | s :: rest => s ++ sep :: joinSep sep rest

/-- Motive of the joint induction: store_key_node equals the spec-side
snapshot and the spec-side failure and found flags. -/
abbrev SKNodeSpec (n : RegNode) : Prop :=
  ∀ (hive_name key : String) (h : Hives),
    store_key_node hive_name key n h =
      (captureAll hive_name key n h,
        if captureFails n then Except.error Error.RegistryIssue
        else Except.ok ⟨directFound n.valuesOf⟩)

/-- Motive of the joint induction, child-list side. -/
abbrev SCForestSpec (f : RegForest) : Prop :=
  ∀ (hive_name key : String) (h : Hives),
    store_children hive_name key f h = (captureChildren hive_name key f h, childFails f)

/-- Motive of the preservation induction: capture never changes a triple
already present. -/
abbrev PresNodeSpec (n : RegNode) : Prop :=
  ∀ (hive_name key : String) (h : Hives) (a b c : String) (e : Entry),
    lookup3 h a b c = some e → lookup3 (store_key_node hive_name key n h).1 a b c = some e

/-- Motive of the preservation induction, child-list side. -/
abbrev PresForestSpec (f : RegForest) : Prop :=
  ∀ (hive_name key : String) (h : Hives) (a b c : String) (e : Entry),
    lookup3 h a b c = some e → lookup3 (store_children hive_name key f h).1 a b c = some e

/-- A restore environment in which every create and every set succeeds. -/
def allOkEnv : RestoreEnv := ⟨fun _ _ => true, fun _ _ _ _ => true⟩

/-- Example subtree: one key App with one value of each of the five
supported types. -/
def appEx : RegNode :=
  .mk true
    [some ("x", ⟨.REG_EXPAND_SZ, .ofStr "%PATH%"⟩),
     some ("y", ⟨.REG_MULTI_SZ, .ofStr "a"⟩),
     some ("z", ⟨.REG_SZ, .ofStr "s"⟩),
     some ("d", ⟨.REG_DWORD, .ofNum 7⟩),
     some ("q", ⟨.REG_QWORD, .ofNum 9⟩)]
    .nil

/-- Example subtree: a key with a value, below emptyEx. -/
def deepEx : RegNode := .mk true [some ("inner", ⟨.REG_SZ, .ofStr "deep"⟩)] .nil

/-- Example subtree: a key with no direct values but a child that has
one. -/
def emptyEx : RegNode := .mk true [] (.cons "Deep" deepEx .nil)

/-- Example machine: HKEY_CURRENT_USER holds App and Empty. -/
def mEx : Machine :=
  { hkcu := .mk true [] (.cons "App" appEx (.cons "Empty" emptyEx .nil)),
    hklm := .mk true [] .nil }

/-
Helper lemmas.
-/

/-- The found flag of the value loop: the initial flag or some direct
value decoding to a set Entry. -/
theorem storeValues_found (hive_name key : String) :
    ∀ (items : List (Option (String × RegValue))) (h : Hives) (f : Bool),
      (storeValues hive_name key items h f).2 = (f || directFound items) := by
  intro items
  induction items with
  | nil => intro h f; simp [storeValues, directFound]
  | cons item rest ih =>
    intro h f
    rcases item with _ | ⟨name, value⟩
    · have e1 : storeValues hive_name key (none :: rest) h f = storeValues hive_name key rest h f := rfl
      rw [e1, ih]
      simp [directFound]
    · by_cases hs : (Entry.fromRegValue value).is_set
      · have e1 : storeValues hive_name key (some (name, value) :: rest) h f =
            storeValues hive_name key rest (insertEntry h hive_name key name (Entry.fromRegValue value)) true := by
          simp [storeValues, hs]
        rw [e1, ih]
        simp [directFound, hs]
      · have e1 : storeValues hive_name key (some (name, value) :: rest) h f =
            storeValues hive_name key rest h f := by
          simp [storeValues, hs]
        rw [e1, ih]
        simp [directFound, hs]

/-- Lookup after an or_insert style update. -/
theorem lookupA_updAt (m : List (String × α)) (k q : String) (d : α) (f : α → α) :
    lookupA (updAt m k d f) q =
      if k = q then some (f ((lookupA m k).getD d)) else lookupA m q := by
  induction m with
  | nil => by_cases hkq : k = q <;> simp [updAt, lookupA, hkq]
  | cons p rest ih =>
    obtain ⟨k', v⟩ := p
    by_cases h1 : k' = k
    · subst h1
      by_cases h2 : k' = q <;> simp [updAt, lookupA, h2]
    · by_cases h2 : k' = q
      · subst h2
        have h3 : ¬(k = k') := fun e => h1 e.symm
        simp [updAt, lookupA, h1, h3]
      · simp [updAt, lookupA, h1, h2, ih]

/-- insertEntry never changes a triple already present. -/
theorem lookup3_insertEntry (h : Hives) (hive key name : String) (e : Entry)
    (a b c : String) (v : Entry) (hv : lookup3 h a b c = some v) :
    lookup3 (insertEntry h hive key name e) a b c = some v := by
  unfold insertEntry
  unfold lookup3 at hv ⊢
  rw [lookupA_updAt]
  by_cases h1 : hive = a
  · subst h1
    rw [if_pos rfl]
    cases hks : lookupA h hive with
    | none => rw [hks] at hv; simp at hv
    | some ks =>
      rw [hks] at hv
      simp only [Option.some_bind] at hv
      simp only [Option.getD_some, Option.some_bind]
      rw [lookupA_updAt]
      by_cases h2 : key = b
      · subst h2
        rw [if_pos rfl]
        cases hes : lookupA ks key with
        | none => rw [hes] at hv; simp at hv
        | some es =>
          rw [hes] at hv
          simp only [Option.some_bind] at hv
          simp only [Option.getD_some, Option.some_bind]
          rw [lookupA_updAt]
          by_cases h3 : name = c
          · subst h3
            rw [if_pos rfl, hv]
            simp
          · rw [if_neg h3]
            exact hv
      · rw [if_neg h2]
        exact hv
  · rw [if_neg h1]
    exact hv

/-- The value loop never changes a triple already present. -/
theorem lookup3_storeValues (hive_name key : String) :
    ∀ (items : List (Option (String × RegValue))) (h : Hives) (f : Bool)
      (a b c : String) (v : Entry),
      lookup3 h a b c = some v → lookup3 (storeValues hive_name key items h f).1 a b c = some v := by
  intro items
  induction items with
  | nil => intro h f a b c v hv; simpa [storeValues] using hv
  | cons item rest ih =>
    intro h f a b c v hv
    rcases item with _ | ⟨name, value⟩
    · simpa [storeValues] using ih h f a b c v hv
    · by_cases hs : (Entry.fromRegValue value).is_set
      · simp only [storeValues, hs, if_pos]
        exact ih _ _ a b c v (lookup3_insertEntry h hive_name key name _ a b c v hv)
      · simp only [storeValues, hs, Bool.false_eq_true, if_neg]
        exact ih h f a b c v hv

/-
Claim theorems.
-/

/-- C2: the Entry to native conversion returns the native representation
of the populated variant, choosing by the fixed precedence sz, multi_sz,
expand_sz, dword, qword when several are populated, and no value when
none is. -/
theorem entry_to_native_precedence :
    ∀ e : Entry,
      Entry.toRegValue? e =
        (match e.sz, e.multi_sz, e.expand_sz, e.dword, e.qword with
         | some x, _, _, _, _ => some (stringToRegValue x)
         | none, some x, _, _, _ => some (stringToRegValue x)
         | none, none, some x, _, _ => some (stringToRegValue x)
         | none, none, none, some x, _ => some (u32ToRegValue x)
         | none, none, none, none, some x => some (u64ToRegValue x)
         | none, none, none, none, none => none) := by
  intro e
  obtain ⟨s, es, ms, d, q⟩ := e
  cases s <;> cases ms <;> cases es <;> cases d <;> cases q <;> rfl

/-- C3: the native to Entry conversion populates exactly the variant
matching the native type tag, with the decoded payload or its default
when decoding fails; any other tag gives the unset Entry; and an unset
Entry is excluded from the snapshot by the capture value loop. -/
theorem native_to_entry_type_fidelity :
    ∀ (rv : RegValue) (hive_name key name : String)
      (rest : List (Option (String × RegValue))) (h : Hives) (f : Bool),
      Entry.fromRegValue rv =
        (match rv.vtype with
         | .REG_SZ => { sz := some ((stringFromRegValue rv).getD "") }
         | .REG_EXPAND_SZ => { expand_sz := some ((stringFromRegValue rv).getD "") }
         | .REG_MULTI_SZ => { multi_sz := some ((stringFromRegValue rv).getD "") }
         | .REG_DWORD => { dword := some ((u32FromRegValue rv).getD 0) }
         | .REG_QWORD => { qword := some ((u64FromRegValue rv).getD 0) }
         | _ => {}) ∧
      ((Entry.fromRegValue rv).is_set = false →
        storeValues hive_name key (some (name, rv) :: rest) h f =
          storeValues hive_name key rest h f) := by
  intro rv hive_name key name rest h f
  constructor
  · obtain ⟨t, d⟩ := rv
    cases t <;> rfl
  · intro hset
    simp [storeValues, hset]

/-- C7 (amended): is_set is true exactly when at least one variant is
populated; on entries carrying at most one payload this is payload count
one; and every Entry built from a native value carries at most one
payload. -/
theorem is_set_payload_characterization :
    ∀ (e : Entry) (rv : RegValue),
      (e.is_set = true ↔ 1 ≤ payloadCount e) ∧
      (payloadCount e ≤ 1 → (e.is_set = true ↔ payloadCount e = 1)) ∧
      payloadCount (Entry.fromRegValue rv) ≤ 1 := by
  intro e rv
  have h1 : e.is_set = true ↔ 1 ≤ payloadCount e := by
    obtain ⟨s, es, ms, d, q⟩ := e
    cases s <;> cases es <;> cases ms <;> cases d <;> cases q <;>
      simp [Entry.is_set, payloadCount]
  refine ⟨h1, ?_, ?_⟩
  · intro hle
    rw [h1]
    omega
  · obtain ⟨t, d⟩ := rv
    cases t <;> simp [Entry.fromRegValue, payloadCount]

/-- C7 counterexample: an Entry with two populated variants has is_set
true while its payload count is not one, so is_set does not mean payload
count one on all of Entry, and an Entry can carry two payloads. -/
theorem is_set_two_payloads_cex :
    ({ sz := some "a", dword := some 1 } : Entry).is_set = true ∧
      payloadCount { sz := some "a", dword := some 1 } ≠ 1 := by
  constructor
  · rfl
  · decide

/-- Capture on an opened node equals the spec-side snapshot plus the
spec-side failure flag and direct found flag; one constructor step of the
joint induction. -/
theorem skn_spec_mk (b : Bool) (vs : List (Option (String × RegValue))) (ch : RegForest)
    (hch : SCForestSpec ch) : SKNodeSpec (RegNode.mk b vs ch) := by
  intro hive_name key h
  cases b with
  | false => simp [store_key_node, captureAll, captureFails]
  | true =>
    have e1 : store_key_node hive_name key (RegNode.mk true vs ch) h =
        ((store_children hive_name key ch (storeValues hive_name key vs h false).1).1,
          if (store_children hive_name key ch (storeValues hive_name key vs h false).1).2 then
            Except.error Error.RegistryIssue
          else Except.ok ⟨(storeValues hive_name key vs h false).2⟩) := rfl
    rw [e1, hch, storeValues_found]
    simp [captureAll, captureFails, RegNode.valuesOf]

/-- Empty child list step of the joint induction. -/
theorem scf_spec_nil : SCForestSpec RegForest.nil := by
  intro hive_name key h
  rfl

/-- Errored enumeration item step of the joint induction. -/
theorem scf_spec_skip (f : RegForest) (hf : SCForestSpec f) : SCForestSpec (RegForest.skip f) := by
  intro hive_name key h
  have e1 : store_children hive_name key (RegForest.skip f) h = store_children hive_name key f h := rfl
  rw [e1, hf]
  rfl

/-- Child step of the joint induction: the child is processed, then the
remaining children on the grown snapshot, and the failure flags are
joined. -/
theorem scf_spec_cons (s : String) (n : RegNode) (f : RegForest)
    (hn : SKNodeSpec n) (hf : SCForestSpec f) : SCForestSpec (RegForest.cons s n f) := by
  intro hive_name key h
  have e1 : store_children hive_name key (RegForest.cons s n f) h =
      ((store_children hive_name key f (store_key_node hive_name (key ++ "\\" ++ s) n h).1).1,
        (match (store_key_node hive_name (key ++ "\\" ++ s) n h).2 with
         | .error _ => true
         | .ok _ => false) ||
          (store_children hive_name key f (store_key_node hive_name (key ++ "\\" ++ s) n h).1).2) := rfl
  have e2 : captureChildren hive_name key (RegForest.cons s n f) h =
      captureChildren hive_name key f (captureAll hive_name (key ++ "\\" ++ s) n h) := rfl
  have e3 : childFails (RegForest.cons s n f) = (captureFails n || childFails f) := rfl
  rw [e1, e2, e3, hn, hf]
  cases hcf : captureFails n with
  | false => simp [hcf]
  | true => simp [hcf]

/-- The joint induction assembled with the recursor of the mutual tree:
capture on every node equals the spec-side description. -/
theorem skn_spec_all : ∀ n : RegNode, SKNodeSpec n :=
  @RegNode.rec SKNodeSpec SCForestSpec skn_spec_mk scf_spec_nil scf_spec_skip scf_spec_cons

/-- Preservation, node step. -/
theorem pres_mk (b : Bool) (vs : List (Option (String × RegValue))) (ch : RegForest)
    (hch : PresForestSpec ch) : PresNodeSpec (RegNode.mk b vs ch) := by
  intro hive_name key h a b' c e hv
  cases b with
  | false => exact hv
  | true =>
    have e1 : (store_key_node hive_name key (RegNode.mk true vs ch) h).1 =
        (store_children hive_name key ch (storeValues hive_name key vs h false).1).1 := rfl
    rw [e1]
    exact hch hive_name key _ a b' c e (lookup3_storeValues hive_name key vs h false a b' c e hv)

/-- Preservation, empty child list step. -/
theorem pres_nil : PresForestSpec RegForest.nil := by
  intro hive_name key h a b c e hv
  exact hv

/-- Preservation, errored enumeration item step. -/
theorem pres_skip (f : RegForest) (hf : PresForestSpec f) : PresForestSpec (RegForest.skip f) := by
  intro hive_name key h a b c e hv
  exact hf hive_name key h a b c e hv

/-- Preservation, child step. -/
theorem pres_cons (s : String) (n : RegNode) (f : RegForest)
    (hn : PresNodeSpec n) (hf : PresForestSpec f) : PresForestSpec (RegForest.cons s n f) := by
  intro hive_name key h a b c e hv
  have e1 : (store_children hive_name key (RegForest.cons s n f) h).1 =
      (store_children hive_name key f (store_key_node hive_name (key ++ "\\" ++ s) n h).1).1 := rfl
  rw [e1]
  exact hf hive_name key _ a b c e (hn hive_name (key ++ "\\" ++ s) h a b c e hv)

/-- Preservation assembled with the recursor of the mutual tree. -/
theorem pres_node_all : ∀ n : RegNode, PresNodeSpec n :=
  @RegNode.rec PresNodeSpec PresForestSpec pres_mk pres_nil pres_skip pres_cons

/-- C5: store_key fails exactly when opening the key fails (unresolvable
path or unopenable node) or at least one recursive child call fails; and
the snapshot it builds is the unconditional collection over every child,
so every child is attempted and data captured from successful siblings
remains even when a sibling fails. -/
theorem store_key_failure_iff_and_snapshot :
    ∀ (m : Machine) (h : Hives) (hive : HKEY) (hive_name key : String),
      ((Hives.store_key m h hive hive_name key).2 = Except.error Error.RegistryIssue ↔
        (match openSubkey (m.root hive) (keySegs key.data) with
         | none => True
         | some n => captureFails n = true)) ∧
      (Hives.store_key m h hive hive_name key).1 =
        (match openSubkey (m.root hive) (keySegs key.data) with
         | none => h
         | some n => captureAll hive_name key n h) := by
  intro m h hive hive_name key
  cases hop : openSubkey (m.root hive) (keySegs key.data) with
  | none => simp [Hives.store_key, hop]
  | some n =>
    simp only [Hives.store_key, hop]
    rw [skn_spec_all n hive_name key h]
    constructor
    · cases hcf : captureFails n <;> simp [hcf]
    · rfl

/-- C8: when store_key succeeds, the returned found flag says exactly
whether some value directly under the opened key decodes to a set Entry;
values in descendant keys do not influence it (the found flags of the
recursive calls are discarded). -/
theorem store_key_found_flag_direct :
    ∀ (m : Machine) (h : Hives) (hive : HKEY) (hive_name key : String)
      (b : RegistryInfo) (n : RegNode),
      openSubkey (m.root hive) (keySegs key.data) = some n →
      (Hives.store_key m h hive hive_name key).2 = Except.ok b →
      b.found = directFound n.valuesOf := by
  intro m h hive hive_name key b n hop hok
  simp only [Hives.store_key, hop] at hok
  rw [skn_spec_all n hive_name key h] at hok
  cases hcf : captureFails n with
  | true => rw [hcf] at hok; simp at hok
  | false =>
    rw [hcf] at hok
    simp at hok
    rw [← hok]

/-- C8 witness: a key with no direct values and a descendant that has one
reports found = false. -/
theorem store_key_found_flag_direct_witness :
    ({ found := false } : RegistryInfo).found = directFound (RegNode.valuesOf emptyEx) :=
  store_key_found_flag_direct mEx [] HKEY.HKEY_CURRENT_USER "HKEY_CURRENT_USER" "Empty"
    ⟨false⟩ emptyEx rfl rfl

/-- C10: capture never removes or replaces existing snapshot content:
every triple present before a store_key call holds the same Entry after
it. -/
theorem store_key_preserves_existing_entries :
    ∀ (m : Machine) (h : Hives) (hive : HKEY) (hive_name key : String)
      (a b c : String) (e : Entry),
      lookup3 h a b c = some e →
      lookup3 (Hives.store_key m h hive hive_name key).1 a b c = some e := by
  intro m h hive hive_name key a b c e hv
  cases hop : openSubkey (m.root hive) (keySegs key.data) with
  | none => simpa [Hives.store_key, hop] using hv
  | some n =>
    simp only [Hives.store_key, hop]
    exact pres_node_all n hive_name key h a b c e hv

/-- C10 witness: capturing a value named x under App does not replace the
Entry already stored at that triple. -/
theorem store_key_preserves_existing_entries_witness :
    lookup3 (Hives.store_key mEx [("HKEY_CURRENT_USER", [("App", [("x", { sz := some "old" })])])]
        HKEY.HKEY_CURRENT_USER "HKEY_CURRENT_USER" "App").1 "HKEY_CURRENT_USER" "App" "x" =
      some { sz := some "old" } :=
  store_key_preserves_existing_entries mEx
    [("HKEY_CURRENT_USER", [("App", [("x", { sz := some "old" })])])]
    HKEY.HKEY_CURRENT_USER "HKEY_CURRENT_USER" "App" "HKEY_CURRENT_USER" "App" "x"
    { sz := some "old" } rfl

/-- The entry loop equals its filterMap / any description. -/
theorem restoreEntries_spec (env : RestoreEnv) (hk : HKEY) (kn : String) :
    ∀ es : Entries,
      restoreEntries env hk kn es =
        (es.filterMap fun r =>
          match Entry.toRegValue? r.2 with
          | none => none
          | some v => if env.setOk hk kn r.1 v then some (hk, kn, r.1, v) else none,
         es.any fun r =>
          match Entry.toRegValue? r.2 with
          | none => true
          | some v => !env.setOk hk kn r.1 v) := by
  intro es
  induction es with
  | nil => rfl
  | cons r rest ih =>
    obtain ⟨en, e⟩ := r
    cases hv : Entry.toRegValue? e with
    | none => simp [restoreEntries, hv, ih, List.filterMap_cons, List.any_cons]
    | some v =>
      by_cases hs : env.setOk hk kn en v = true <;>
        simp [restoreEntries, hv, ih, List.filterMap_cons, List.any_cons, hs]

/-- The key loop equals its map / flatten / any description. -/
theorem restoreKeys_spec (env : RestoreEnv) (hk : HKEY) :
    ∀ ks : Keys,
      restoreKeys env hk ks =
        ((ks.map fun q =>
          if env.createOk hk q.1 then
            q.2.filterMap fun r =>
              match Entry.toRegValue? r.2 with
              | none => none
              | some v => if env.setOk hk q.1 r.1 v then some (hk, q.1, r.1, v) else none
          else []).flatten,
         ks.any fun q =>
          !env.createOk hk q.1 ||
            q.2.any fun r =>
              match Entry.toRegValue? r.2 with
              | none => true
              | some v => !env.setOk hk q.1 r.1 v) := by
  intro ks
  induction ks with
  | nil => rfl
  | cons q rest ih =>
    obtain ⟨kn, es⟩ := q
    by_cases hc : env.createOk hk kn = true <;>
      simp [restoreKeys, hc, ih, restoreEntries_spec, List.map_cons, List.flatten_cons, List.any_cons]

/-- The hive loop equals the spec-side writes and failure descriptions. -/
theorem restoreHives_spec (env : RestoreEnv) :
    ∀ h : Hives, restoreHives env h = (restoreWritesSpec env h, restoreFailure env h) := by
  intro h
  induction h with
  | nil => rfl
  | cons p rest ih =>
    obtain ⟨hn, ks⟩ := p
    cases hg : get_hkey_from_name hn with
    | none =>
      simp [restoreHives, hg, ih, restoreWritesSpec, restoreFailure, List.map_cons,
        List.flatten_cons, List.any_cons]
    | some hk =>
      simp [restoreHives, hg, ih, restoreKeys_spec, restoreWritesSpec, restoreFailure,
        List.map_cons, List.flatten_cons, List.any_cons]

/-- C4: restore returns the error exactly when, somewhere in the
snapshot, a hive name fails to resolve, a key fails to create, an entry
converts to no value, or a set fails; and the writes it performs are
exactly the successful sets, independent of failures elsewhere: failing
hives, keys and entries are skipped while the rest is processed, and
earlier successful writes are kept (no rollback). -/
theorem restore_failure_iff_and_writes :
    ∀ (env : RestoreEnv) (h : Hives),
      ((Hives.restore env h).2 = Except.error Error.RegistryIssue ↔ restoreFailure env h = true) ∧
      (Hives.restore env h).1 = restoreWritesSpec env h := by
  intro env h
  have e1 : Hives.restore env h =
      ((restoreHives env h).1,
        if (restoreHives env h).2 then Except.error Error.RegistryIssue else Except.ok ()) := rfl
  rw [e1, restoreHives_spec]
  constructor
  · cases hf : restoreFailure env h <;> simp [hf]
  · simp

/-- Separator normalization fixes a slash-free char list. -/
theorem normSep_fix (l : List Char) (hl : ('/' : Char) ∉ l) : normSep l = l := by
  induction l with
  | nil => rfl
  | cons c rest ih =>
    have hc : ¬(c = '/') := by
      intro e
      exact hl (by simp [e])
    have hr : ('/' : Char) ∉ rest := fun m => hl (List.mem_cons_of_mem _ m)
    simpa [normSep, hc] using ih hr

/-- Normalizing a slash-joined path gives the backslash-joined path. -/
theorem normSep_joinSep (parts : List (List Char)) (hp : ∀ p ∈ parts, ('/' : Char) ∉ p) :
    normSep (joinSep '/' parts) = joinSep '\\' parts := by
  induction parts with
  | nil => rfl
  | cons p ps ih =>
    cases ps with
    | nil => simpa [joinSep] using normSep_fix p (hp p (by simp))
    | cons q qs =>
      have e1 : joinSep '/' (p :: q :: qs) = p ++ '/' :: joinSep '/' (q :: qs) := rfl
      have e2 : joinSep '\\' (p :: q :: qs) = p ++ '\\' :: joinSep '\\' (q :: qs) := rfl
      have hpp := normSep_fix p (hp p (by simp))
      have ihh := ih fun r hr => hp r (List.mem_cons_of_mem _ hr)
      rw [e1, e2]
      simp only [normSep, List.map_append, List.map_cons] at hpp ihh ⊢
      simp [hpp, ihh]

/-- A backslash-joined path over slash-free segments contains no slash. -/
theorem slash_not_mem_joinSep (parts : List (List Char)) (hp : ∀ p ∈ parts, ('/' : Char) ∉ p) :
    ('/' : Char) ∉ joinSep '\\' parts := by
  induction parts with
  | nil => simp [joinSep]
  | cons p ps ih =>
    cases ps with
    | nil => simpa [joinSep] using hp p (by simp)
    | cons q qs =>
      have e2 : joinSep '\\' (p :: q :: qs) = p ++ '\\' :: joinSep '\\' (q :: qs) := rfl
      rw [e2]
      intro hm
      rcases List.mem_append.mp hm with h1 | h2
      · exact hp p (by simp) h1
      · rcases List.mem_cons.mp h2 with h3 | h4
        · exact absurd h3 (by decide)
        · exact ih (fun r hr => hp r (List.mem_cons_of_mem _ hr)) h4

/-- C9: for any key path given as slash-free segments, capture from the
full path written with slash separators and written with backslash
separators is the same function of the machine and snapshot: every slash
is replaced by a backslash before splitting and capture. -/
theorem store_key_from_full_path_separator_norm :
    ∀ (m : Machine) (h : Hives) (parts : List (List Char)),
      (∀ p ∈ parts, ('/' : Char) ∉ p) →
      Hives.store_key_from_full_path m h (String.mk (joinSep '/' parts)) =
        Hives.store_key_from_full_path m h (String.mk (joinSep '\\' parts)) := by
  intro m h parts hp
  unfold Hives.store_key_from_full_path
  have e1 : (String.mk (joinSep '/' parts)).data = joinSep '/' parts := rfl
  have e2 : (String.mk (joinSep '\\' parts)).data = joinSep '\\' parts := rfl
  rw [e1, e2, normSep_joinSep parts hp, normSep_fix (joinSep '\\' parts) (slash_not_mem_joinSep parts hp)]

/-- C9 witness: the same concrete path with slash and with backslash
separators. -/
theorem store_key_from_full_path_separator_norm_witness :
    Hives.store_key_from_full_path mEx [] (String.mk (joinSep '/' ["HKEY_CURRENT_USER".data, "App".data])) =
      Hives.store_key_from_full_path mEx [] (String.mk (joinSep '\\' ["HKEY_CURRENT_USER".data, "App".data])) :=
  store_key_from_full_path_separator_norm mEx [] ["HKEY_CURRENT_USER".data, "App".data] (by decide)

/-- C6: capture from a full path returns the error, for every machine
and without touching the snapshot, whenever the normalized path has no
separator or its first segment is not one of the two recognized hive
names; the machine never enters the result, so no enumeration happens. -/
theorem store_key_from_full_path_fail_fast :
    ∀ (m : Machine) (h : Hives) (path : String),
      (match splitOnce '\\' (normSep path.data) with
       | none => True
       | some pr => String.mk pr.1 ≠ "HKEY_CURRENT_USER" ∧ String.mk pr.1 ≠ "HKEY_LOCAL_MACHINE") →
      Hives.store_key_from_full_path m h path = (h, Except.error Error.RegistryIssue) := by
  intro m h path hbad
  unfold Hives.store_key_from_full_path
  cases hsp : splitOnce '\\' (normSep path.data) with
  | none => rfl
  | some pr =>
    obtain ⟨pre, rest⟩ := pr
    rw [hsp] at hbad
    have hb1 : String.mk pre ≠ "HKEY_CURRENT_USER" := hbad.1
    have hb2 : String.mk pre ≠ "HKEY_LOCAL_MACHINE" := hbad.2
    have hg : get_hkey_from_name (String.mk pre) = none := by
      simp only [get_hkey_from_name, if_neg hb1, if_neg hb2]
    show (match get_hkey_from_name (String.mk pre) with
        | none => (h, Except.error Error.RegistryIssue)
        | some hive => Hives.store_key m h hive (String.mk pre) (String.mk rest)) =
      (h, Except.error Error.RegistryIssue)
    rw [hg]

/-- C6 witness: an unrecognized root errors with the snapshot unchanged
on a machine whose current-user hive does hold data. -/
theorem store_key_from_full_path_fail_fast_witness :
    Hives.store_key_from_full_path mEx [] "BOGUS_ROOT\\Foo" = ([], Except.error Error.RegistryIssue) :=
  store_key_from_full_path_fail_fast mEx [] "BOGUS_ROOT\\Foo" (by exact ⟨by decide, by decide⟩)

/-- C1 at the failing input: capturing HKEY_CURRENT_USER\App, whose five
values cover the five supported native types, and replaying the captured
snapshot writes every string-variant value with the REG_SZ tag: the
expandable text value x and the multi-segment text value y come back
tagged REG_SZ, not REG_EXPAND_SZ or REG_MULTI_SZ, so the round trip does
not preserve the native type tag for those variants. -/
theorem round_trip_replay_tags_eval :
    (Hives.restore allOkEnv (Hives.store_key_from_full_path mEx [] "HKEY_CURRENT_USER\\App").1).1 =
      [(HKEY.HKEY_CURRENT_USER, "App", "x", ⟨RegType.REG_SZ, RegData.ofStr "%PATH%"⟩),
       (HKEY.HKEY_CURRENT_USER, "App", "y", ⟨RegType.REG_SZ, RegData.ofStr "a"⟩),
       (HKEY.HKEY_CURRENT_USER, "App", "z", ⟨RegType.REG_SZ, RegData.ofStr "s"⟩),
       (HKEY.HKEY_CURRENT_USER, "App", "d", ⟨RegType.REG_DWORD, RegData.ofNum 7⟩),
       (HKEY.HKEY_CURRENT_USER, "App", "q", ⟨RegType.REG_QWORD, RegData.ofNum 9⟩)] ∧
    RegType.REG_SZ ≠ RegType.REG_EXPAND_SZ ∧ RegType.REG_SZ ≠ RegType.REG_MULTI_SZ :=
  ⟨rfl, by decide, by decide⟩
